import Mathlib

/-!
# Verification of the DDRelocator core

Shallow embedding of the DDRelocator master-event relocation core:

* `DD` models `src/ddrelocator/ddrelocator.py` (the self-contained variant
  with an integer `use` flag, `np.mean` statistics, `gridsearch`, and
  `find_best_solution` via `np.argmin`);
* `Loc` models `src/ddrelocator/locator.py` together with the classes of
  `src/ddrelocator/headers.py` (the variant with a rational `weight`,
  `np.average` statistics, a tagged geographic/cylindrical `Solution`,
  a `keep_residual` flag, and `Solution.to_event`).

Numbers are modelled by `ℚ` (the Python code computes with IEEE doubles;
we verify the exact-arithmetic content).  The external numeric primitives
the code calls — obspy's `gps2dist_azimuth` and `kilometers2degrees`,
numpy's `cos`, `sin`, `radians`, `degrees` — are collected in a `Geo`
record of abstract functions; every theorem quantifies over it.
`np.sqrt` is modelled by `Real.sqrt`, applied to the rational radicand
that the code passes to it.  A float `NaN` produced by `np.mean([])` is
modelled by `none : Option ℚ`, and `np.average`'s `ZeroDivisionError`
for a zero weight sum by `Except.error`.
-/

/-- External numeric primitives used by the relocator: the obspy geodesy
functions and the numpy trigonometric conversions.  They are opaque
real-world functions from the code's point of view, so the embedding
abstracts them as an arbitrary record of rational functions. -/
structure Geo where
  /-- `obspy.geodetics.gps2dist_azimuth(lat1, lon1, lat2, lon2)[0]`:
  great-circle distance in meters. -/
  gpsDistM : ℚ → ℚ → ℚ → ℚ → ℚ
  /-- `obspy.geodetics.gps2dist_azimuth(lat1, lon1, lat2, lon2)[1]`:
  azimuth in degrees. -/
  gpsAzDeg : ℚ → ℚ → ℚ → ℚ → ℚ
  /-- `obspy.geodetics.kilometers2degrees`. -/
  km2deg : ℚ → ℚ
  /-- `np.cos` (argument in radians). -/
  cos : ℚ → ℚ
  /-- `np.sin` (argument in radians). -/
  sin : ℚ → ℚ
  /-- `np.radians`. -/
  rad : ℚ → ℚ
  /-- `np.degrees`. -/
  deg : ℚ → ℚ

/-- `Event` of `headers.py` / `ddrelocator.py`: origin time (seconds on a
linear time axis), latitude, longitude (degrees), depth (km), and an
optional magnitude (unused by the core). -/
structure Event where
  origin : ℚ
  latitude : ℚ
  longitude : ℚ
  depth : ℚ
  magnitude : Option ℚ
deriving DecidableEq

/-- `distaz` of `helpers.py`: distance (degrees) and azimuth (degrees)
between two geographic points, via `gps2dist_azimuth` (meters) and
`kilometers2degrees`. -/
def distaz (G : Geo) (lat1 lon1 lat2 lon2 : ℚ) : ℚ × ℚ :=
  (G.km2deg (G.gpsDistM lat1 lon1 lat2 lon2 / 1000), G.gpsAzDeg lat1 lon1 lat2 lon2)

namespace DD

/-- `Obs` of `ddrelocator.py`: a differential-time observation with an
integer `use` flag.  The transient attributes `dt_pre` and `residual`
are `Option`-valued: `none` models the attribute being absent or set to
a float NaN. -/
structure Obs where
  station : String
  latitude : ℚ
  longitude : ℚ
  distance : ℚ
  azimuth : ℚ
  phase : String
  time : ℚ
  dtdd : ℚ
  dtdh : ℚ
  dt : ℚ
  use : ℤ
  dt_pre : Option ℚ
  residual : Option ℚ
deriving DecidableEq

/-- `Solution` of `ddrelocator.py`: offsets, the absolute location
computed in `__init__`, and the evaluation fields set by
`try_solution`.  `tmean`/`msq` are `none` before evaluation and also
when the evaluation produces a float NaN; `msq` is the radicand passed
to `np.sqrt`, so the code's `misfit` is `Real.sqrt` of it. -/
structure Solution where
  dlat : ℚ
  dlon : ℚ
  ddepth : ℚ
  latitude : ℚ
  longitude : ℚ
  depth : ℚ
  tmean : Option ℚ
  msq : Option ℚ
deriving DecidableEq

/-- `Solution.__init__(dlat, dlon, ddepth, master)` of `ddrelocator.py`:
stores the offsets and the absolute location `master + offset`. -/
def Solution.ofOffsets (dlat dlon ddepth : ℚ) (master : Event) : Solution :=
  ⟨dlat, dlon, ddepth,
   master.latitude + dlat, master.longitude + dlon, master.depth + ddepth,
   none, none⟩

/-- `SearchParams` of `ddrelocator.py`. -/
structure SearchParams where
  dlats : List ℚ
  dlons : List ℚ
  ddeps : List ℚ

/-- Predicted travel-time difference of one observation for a solution
(`ddrelocator.py`, lines 211–215): epicentral distance is recomputed
from the solution's absolute location to the station via
`gps2dist_azimuth` and `kilometers2degrees`, then
`dt_pre = dtdd * (distance - obs.distance) + dtdh * sol.ddepth`. -/
def dt_pre_of (G : Geo) (sol : Solution) (obs : Obs) : ℚ :=
  obs.dtdd * (G.km2deg (G.gpsDistM sol.latitude sol.longitude obs.latitude obs.longitude / 1000)
      - obs.distance)
    + obs.dtdh * sol.ddepth

/-- Raw residual of one observation (`ddrelocator.py`, line 216):
`residual = dt - dt_pre`. -/
def residual_of (G : Geo) (sol : Solution) (obs : Obs) : ℚ :=
  obs.dt - dt_pre_of G sol obs

/-- `try_solution(obslist, sol)` of `ddrelocator.py`.  Returns the
solution with `tmean`/`msq` set and the observation list with
`dt_pre`/`residual` set (the Python code mutates in place).  When no
observation has `use == 1`, `np.mean([])` yields NaN, so `tmean`, the
corrected residuals, and `msq` are all `none`. -/
def try_solution (G : Geo) (obslist : List Obs) (sol : Solution) : Solution × List Obs :=
  let withPred := obslist.map fun obs =>
    { obs with dt_pre := some (dt_pre_of G sol obs),
               residual := some (residual_of G sol obs) }
  let used := obslist.filter fun obs => obs.use == 1
  if used.isEmpty then
    ({ sol with tmean := none, msq := none },
     withPred.map fun obs => { obs with residual := none })
  else
    let n : ℚ := (used.length : ℚ)
    let tmean := (used.map (residual_of G sol)).sum / n
    let msq := (used.map fun obs => (residual_of G sol obs - tmean) ^ 2).sum / n
    ({ sol with tmean := some tmean, msq := some msq },
     withPred.map fun obs => { obs with residual := obs.residual.map (· - tmean) })

/-- `gridsearch(master, obslist, params)` of `ddrelocator.py`:
`itertools.product(params.ddeps, params.dlats, params.dlons)` in order,
constructing and evaluating a `Solution` for each triple. -/
def gridsearch (G : Geo) (master : Event) (obslist : List Obs) (params : SearchParams) :
    List Solution :=
  params.ddeps.flatMap fun ddep =>
    params.dlats.flatMap fun dlat =>
      params.dlons.map fun dlon =>
        (try_solution G obslist (Solution.ofOffsets dlat dlon ddep master)).1

/-- The `misfit` attribute read by `find_best_solution`:
`np.sqrt` of the mean square (`msq`).  A NaN (from an empty used-subset)
is modelled by `⊥` of `WithBot ℝ`, because numpy's `argmin` loop treats
the first NaN it meets as the minimum (it takes a NaN over any current
best and never replaces it), which is exactly a bottom element under
the first-strict-minimum scan below. -/
noncomputable def Solution.misfit (s : Solution) : WithBot ℝ :=
  match s.msq with
  | none => ⊥
  | some q => ((Real.sqrt q : ℝ) : WithBot ℝ)

/-- The scanning loop of `np.argmin`: `bi`/`bv` are the index and value
of the current best, `i` the index of the head of the remaining list;
the best is replaced exactly when the next value is strictly below it. -/
noncomputable def argminGo (bi : ℕ) (bv : WithBot ℝ) (i : ℕ) : List (WithBot ℝ) → ℕ
  | [] => bi
  | x :: xs => if x < bv then argminGo i x (i + 1) xs else argminGo bi bv (i + 1) xs

/-- `np.argmin` over a list of misfit values: index of the first
minimum (0 on the empty list, where numpy raises instead). -/
noncomputable def argminIdx : List (WithBot ℝ) → ℕ
  | [] => 0
  | x :: xs => argminGo 0 x 1 xs

/-- `find_best_solution(solutions)` of `ddrelocator.py`:
`solutions[np.argmin([s.misfit for s in solutions])]`. -/
noncomputable def find_best_solution (solutions : List Solution) : Option Solution :=
  solutions[argminIdx (solutions.map Solution.misfit)]?

end DD

namespace Loc

/-- `Obs` of `headers.py`: a differential-time observation with a
rational `weight`.  `dt_pre` and `residual` are the transient
attributes set and possibly deleted by `try_solution`; `none` models
the attribute being absent. -/
structure Obs where
  station : String
  latitude : ℚ
  longitude : ℚ
  distance : ℚ
  azimuth : ℚ
  phase : String
  time : ℚ
  dtdd : ℚ
  dtdh : ℚ
  dt : ℚ
  weight : ℚ
  dt_pre : Option ℚ
  residual : Option ℚ
deriving DecidableEq

/-- The persistent part of an observation: everything except the
transient `dt_pre`/`residual` scratch attributes. -/
def Obs.core (o : Obs) : Obs :=
  { o with dt_pre := none, residual := none }

/-- `Solution` parameters of `headers.py`: a tagged union of the
geographic `(dlat°, dlon°, ddepth km)` and cylindrical
`(ddist m, az°, ddepth m)` parameterizations. -/
inductive SolParams where
  | geographic (dlat dlon ddepth : ℚ)
  | cylindrical (ddist az ddepth : ℚ)
deriving DecidableEq

/-- Error raised by the numpy primitives: `np.average` raises
`ZeroDivisionError` when the weights sum to zero (also for an empty
array with empty weights). -/
inductive PyErr where
  | zeroDivisionError
deriving DecidableEq

/-- `np.average(values, weights=weights)`: the weighted mean
`Σ wᵢ·vᵢ / Σ wᵢ`, raising `ZeroDivisionError` when `Σ wᵢ = 0`. -/
def npAverage (values weights : List ℚ) : Except PyErr ℚ :=
  if weights.sum = 0 then .error .zeroDivisionError
  else .ok ((List.zipWith (fun w v => w * v) weights values).sum / weights.sum)

/-- Predicted travel-time difference of one observation
(`locator.py`, lines 26–42).  Geographic mode: distance recomputed via
`distaz` from the trial absolute location `master + (dlat, dlon)`, then
`dt_pre = dtdd * (distance - obs.distance) + dtdh * ddepth`.
Cylindrical mode: `ddist` and `ddepth` are converted from meters to km
and `dt_pre = dtdd * kilometers2degrees(-ddist * cos(radians(az - obs.azimuth)))
+ dtdh * ddepth`; no absolute location is formed. -/
def dt_pre_of (G : Geo) (master : Event) (sol : SolParams) (obs : Obs) : ℚ :=
  match sol with
  | .geographic dlat dlon ddepth =>
      obs.dtdd * ((distaz G (master.latitude + dlat) (master.longitude + dlon)
          obs.latitude obs.longitude).1 - obs.distance)
        + obs.dtdh * ddepth
  | .cylindrical ddist az ddepth =>
      obs.dtdd * G.km2deg (-(ddist / 1000) * G.cos (G.rad (az - obs.azimuth)))
        + obs.dtdh * (ddepth / 1000)

/-- Raw residual of one observation (`locator.py`, line 46):
`residual = dt - dt_pre`. -/
def residual_of (G : Geo) (master : Event) (sol : SolParams) (obs : Obs) : ℚ :=
  obs.dt - dt_pre_of G master sol obs

/-- Result of `try_solution` of `locator.py`: the fields written to the
solution and the final state of the observation list.  `msq` is the
radicand passed to `np.sqrt`, so `misfit = Real.sqrt msq`. -/
structure EvalResult where
  tmean : ℚ
  msq : ℚ
  obslist : List Obs
deriving DecidableEq

/-- The solution's `misfit` attribute: `np.sqrt` of the weighted mean
of squared corrected residuals. -/
noncomputable def EvalResult.misfit (r : EvalResult) : ℝ :=
  Real.sqrt r.msq

/-- Final per-observation bookkeeping of `try_solution` of `locator.py`
(lines 55–61): with `keep_residual` the observation keeps `dt_pre` and
the tmean-corrected `residual`; otherwise both attributes are deleted
(`del obs.residual, obs.dt_pre`).  All other fields are untouched. -/
def updateObs (G : Geo) (master : Event) (sol : SolParams) (tmean : ℚ) (keep_residual : Bool)
    (obs : Obs) : Obs :=
  if keep_residual then
    { obs with dt_pre := some (dt_pre_of G master sol obs),
               residual := some (residual_of G master sol obs - tmean) }
  else
    { obs with dt_pre := none, residual := none }

/-- `try_solution(master, obslist, sol, keep_residual)` of `locator.py`.
Per-observation predicted times and raw residuals, then
`tmean = np.average(residuals, weights)` and
`misfit = np.sqrt(np.average((residuals - tmean)**2, weights))`; with
`keep_residual` the observations keep `dt_pre` and the tmean-corrected
residual, otherwise both attributes are deleted.  (On a
`ZeroDivisionError` the Python objects keep their freshly written
scratch attributes; only the raised error is modelled here.) -/
def try_solution (G : Geo) (master : Event) (obslist : List Obs) (sol : SolParams)
    (keep_residual : Bool) : Except PyErr EvalResult :=
  let residuals := obslist.map (residual_of G master sol)
  let weights := obslist.map Obs.weight
  match npAverage residuals weights with
  | .error e => .error e
  | .ok tmean =>
    match npAverage (residuals.map fun r => (r - tmean) ^ 2) weights with
    | .error e => .error e
    | .ok msq =>
      .ok ⟨tmean, msq, obslist.map (updateObs G master sol tmean keep_residual)⟩

/-- `Solution.to_event(master)` of `headers.py` (with `slave=None`):
origin shifted by `tmean`; geographic mode adds the offsets to the
master coordinates; cylindrical mode converts `(ddist, az)` to the
absolute position by a flat-Earth step of `ddist/1000` km on a sphere
of radius 6371 km, in radians, with the longitude step divided by the
cosine of the *already shifted* latitude; depth offset `m → km`. -/
def to_event (G : Geo) (sol : SolParams) (tmean : ℚ) (master : Event) : Event :=
  match sol with
  | .geographic dlat dlon ddepth =>
      ⟨master.origin + tmean, master.latitude + dlat, master.longitude + dlon,
       master.depth + ddepth, master.magnitude⟩
  | .cylindrical ddist az ddepth =>
      let earth_radius : ℚ := 6371
      let ddistKm := ddist / 1000
      let azimuth := G.rad az
      let lat0 := G.rad master.latitude
      let lon0 := G.rad master.longitude
      let lat1 := lat0 + ddistKm / earth_radius * G.cos azimuth
      let lon1 := lon0 + ddistKm / earth_radius * G.sin azimuth / G.cos lat1
      ⟨master.origin + tmean, G.deg lat1, G.deg lon1,
       master.depth + ddepth / 1000, master.magnitude⟩

end Loc

/-- The value `np.average(residuals, weights=weights)` computes in the
non-degenerate case of `locator.py`'s `try_solution`:
`Σ wᵢ·rᵢ / Σ wᵢ` over the whole observation list. -/
def Loc.tmean_of (G : Geo) (master : Event) (obslist : List Loc.Obs) (sol : Loc.SolParams) : ℚ :=
  (obslist.map fun o => o.weight * Loc.residual_of G master sol o).sum
    / (obslist.map Loc.Obs.weight).sum

/-- The radicand `np.average((residuals - tmean)**2, weights=weights)`
of `locator.py`'s misfit in the non-degenerate case. -/
def Loc.msq_of (G : Geo) (master : Event) (obslist : List Loc.Obs) (sol : Loc.SolParams) : ℚ :=
  (obslist.map fun o =>
      o.weight * (Loc.residual_of G master sol o - Loc.tmean_of G master obslist sol) ^ 2).sum
    / (obslist.map Loc.Obs.weight).sum

/-- The two statistics `try_solution` writes to the solution. -/
def Loc.stats (r : Loc.EvalResult) : ℚ × ℚ :=
  (r.tmean, r.msq)

/-- The observations of positive weight: the claims describe the
weighted statistics as restricted to this sublist. -/
def Loc.posObs (obslist : List Loc.Obs) : List Loc.Obs :=
  obslist.filter fun o => decide (0 < o.weight)

/-- Spec reading of the cylindrical evaluator compared against the code
in `c5_counterexample`: the claim says the evaluator first converts
`(ddist, az)` to an absolute trial location by the flat-Earth step
`Δlat = (d/R)·cos az`, `Δlon = (d/R)·sin az / cos lat` with `R = 6371`
km and `d` normalized to km, and then proceeds like the geographic
evaluator (distance recomputed from that trial location, then
`dt_pre = dtdd·(distance − reference) + dtdh·Δdepth`).  This definition
follows the spec's words; the code's cylindrical evaluator
(`Loc.dt_pre_of`) computes the projection directly instead. -/
def spec_cyl_dt_pre (G : Geo) (master : Event) (ddist az ddepth : ℚ) (obs : Loc.Obs) : ℚ :=
  let dKm := ddist / 1000
  let dlat := G.deg (dKm / 6371 * G.cos (G.rad az))
  let dlon := G.deg (dKm / 6371 * G.sin (G.rad az) / G.cos (G.rad master.latitude))
  obs.dtdd * ((distaz G (master.latitude + dlat) (master.longitude + dlon)
      obs.latitude obs.longitude).1 - obs.distance)
    + obs.dtdh * (ddepth / 1000)

/-- A concrete instantiation of the external numeric primitives, used
to evaluate the embedding at concrete inputs. -/
def G0 : Geo :=
  ⟨fun _ _ _ _ => 0, fun _ _ _ _ => 0, id, fun _ => 1, fun _ => 0, id, id⟩

/-- A concrete master event. -/
def master0 : Event := ⟨0, 0, 0, 10, none⟩

/-- A concrete `locator.py`-style observation of weight 1. -/
def obsL0 : Loc.Obs := ⟨"STA", 1, 2, 5, 0, "P", 100, 1, 0, 2, 1, none, none⟩

/-- A concrete `locator.py`-style observation of weight 0. -/
def obsL1 : Loc.Obs := ⟨"STB", 3, 4, 7, 90, "S", 200, 2, 1, 9, 0, none, none⟩

/-- A concrete `ddrelocator.py`-style observation with `use = 0`. -/
def obsD0 : DD.Obs := ⟨"STA", 0, 0, 5, 0, "P", 100, 1, 0, 2, 0, none, none⟩

/-- A concrete `ddrelocator.py`-style observation with `use = 1`. -/
def obsD1 : DD.Obs := ⟨"STB", 1, 1, 6, 90, "P", 150, 1, 0, 3, 1, none, none⟩

/-- A concrete unevaluated `ddrelocator.py` solution. -/
def solD0 : DD.Solution := DD.Solution.ofOffsets 0 0 0 master0

/-- An evaluated solution whose misfit is NaN (modelled `msq = none`). -/
def solNaN : DD.Solution := ⟨0, 0, 0, 0, 0, 10, none, none⟩

/-- An evaluated solution with finite misfit `sqrt 1`. -/
def solFin : DD.Solution := ⟨0, 0, 1, 0, 0, 11, some 0, some 1⟩

/-! ## Helper lemmas -/

lemma zipWith_mul_map {α : Type} (g h : α → ℚ) (l : List α) :
    List.zipWith (fun w v => w * v) (l.map g) (l.map h) = l.map fun a => g a * h a := by
  induction l with
  | nil => rfl
  | cons a t ih => simp [ih]

lemma Loc.try_solution_error (G : Geo) (master : Event) (obslist : List Loc.Obs)
    (sol : Loc.SolParams) (keep : Bool) (h : (obslist.map Loc.Obs.weight).sum = 0) :
    Loc.try_solution G master obslist sol keep = .error .zeroDivisionError := by
  unfold Loc.try_solution Loc.npAverage
  simp [h]

lemma Loc.try_solution_eq_ok (G : Geo) (master : Event) (obslist : List Loc.Obs)
    (sol : Loc.SolParams) (keep : Bool) (h : (obslist.map Loc.Obs.weight).sum ≠ 0) :
    Loc.try_solution G master obslist sol keep =
      .ok ⟨Loc.tmean_of G master obslist sol, Loc.msq_of G master obslist sol,
           obslist.map (Loc.updateObs G master sol (Loc.tmean_of G master obslist sol) keep)⟩ := by
  unfold Loc.try_solution Loc.npAverage
  simp only [if_neg h, List.map_map, zipWith_mul_map, Function.comp_def]
  rfl

/-! ## Claim theorems -/

/-- C9: a geographic Solution built from offsets `(dlat, dlon, ddepth)`
and evaluated (so `tmean` is set), converted to an absolute `Event`
against a master event, satisfies: event coordinates minus master
coordinates reproduce the offsets exactly (latitude, longitude, depth),
and the origin shift is `tmean`.  The same holds for the absolute
location stored by `ddrelocator.py`'s `Solution.__init__`. -/
theorem c9_roundtrip_offsets (G : Geo) (master master2 : Event) (dlat dlon ddepth tmean : ℚ) :
    (Loc.to_event G (.geographic dlat dlon ddepth) tmean master).latitude - master.latitude = dlat
    ∧ (Loc.to_event G (.geographic dlat dlon ddepth) tmean master).longitude - master.longitude
        = dlon
    ∧ (Loc.to_event G (.geographic dlat dlon ddepth) tmean master).depth - master.depth = ddepth
    ∧ (Loc.to_event G (.geographic dlat dlon ddepth) tmean master).origin - master.origin = tmean
    ∧ (DD.Solution.ofOffsets dlat dlon ddepth master2).latitude - master2.latitude = dlat
    ∧ (DD.Solution.ofOffsets dlat dlon ddepth master2).longitude - master2.longitude = dlon
    ∧ (DD.Solution.ofOffsets dlat dlon ddepth master2).depth - master2.depth = ddepth := by
  refine ⟨?_, ?_, ?_, ?_, ?_, ?_, ?_⟩ <;>
    simp [Loc.to_event, DD.Solution.ofOffsets]

/-- C10: in cylindrical mode the evaluator of `locator.py` never reads
the master event: evaluating the same observation list and the same
cylindrical parameters against two different master events gives
identical results — tmean, misfit and all per-observation fields. -/
theorem c10_cylindrical_master_independent (G : Geo) (m1 m2 : Event) (obslist : List Loc.Obs)
    (ddist az ddepth : ℚ) (keep : Bool) :
    Loc.try_solution G m1 obslist (.cylindrical ddist az ddepth) keep
      = Loc.try_solution G m2 obslist (.cylindrical ddist az ddepth) keep := rfl

/-- C5 counterexample: the claim reads the cylindrical evaluator as
computing an absolute trial location by the flat-Earth conversion and
then recomputing distances from it (`spec_cyl_dt_pre`).  The code's
cylindrical evaluator (`Loc.dt_pre_of`, `locator.py` lines 34–42)
instead predicts the differential time directly from the projection of
the offset on each ray's azimuth and never forms an absolute location;
the two disagree at a concrete input. -/
theorem c5_counterexample :
    ¬ ∀ (G : Geo) (master : Event) (obs : Loc.Obs) (ddist az ddepth : ℚ),
        Loc.dt_pre_of G master (.cylindrical ddist az ddepth) obs
          = spec_cyl_dt_pre G master ddist az ddepth obs :=
  fun h => absurd (h G0 master0 obsL0 1000 0 0)
    (by norm_num [Loc.dt_pre_of, spec_cyl_dt_pre, G0, distaz, obsL0, master0])

/-- C5 (amended): the cylindrical evaluator computes, per observation,
`dt_pre = dtdd · kilometers2degrees(−(ddist/1000) · cos(radians(az − obs.azimuth)))
+ dtdh · (ddepth/1000)` (meters normalized to km, no absolute location);
the flat-Earth conversion with Earth radius 6371 km is performed by
`Solution.to_event`, which adds `(d/R)·cos az` to the latitude (in
radians) and `(d/R)·sin az / cos(shifted latitude)` to the longitude,
and normalizes the depth offset from meters to km. -/
theorem c5_amended (G : Geo) (master : Event) (obs : Loc.Obs) (ddist az ddepth tmean : ℚ) :
    Loc.dt_pre_of G master (.cylindrical ddist az ddepth) obs
      = obs.dtdd * G.km2deg (-(ddist / 1000) * G.cos (G.rad (az - obs.azimuth)))
        + obs.dtdh * (ddepth / 1000)
    ∧ Loc.to_event G (.cylindrical ddist az ddepth) tmean master
      = ⟨master.origin + tmean,
         G.deg (G.rad master.latitude + ddist / 1000 / 6371 * G.cos (G.rad az)),
         G.deg (G.rad master.longitude + ddist / 1000 / 6371 * G.sin (G.rad az)
           / G.cos (G.rad master.latitude + ddist / 1000 / 6371 * G.cos (G.rad az))),
         master.depth + ddepth / 1000, master.magnitude⟩ :=
  ⟨rfl, rfl⟩

/-- C1: in geographic mode both evaluators recompute the epicentral
distance from the trial absolute location (master plus offset) to the
station, set `dt_pre = dtdd · (trial_distance − reference_distance) +
dtdh · ddepth`, and set the residual to `dt − dt_pre`; the evaluated
observation lists carry exactly these values. -/
theorem c1_geographic_residuals (G : Geo) (master : Event) (dlat dlon ddepth : ℚ)
    (obs : Loc.Obs) :
    (Loc.dt_pre_of G master (.geographic dlat dlon ddepth) obs
      = obs.dtdd * ((distaz G (master.latitude + dlat) (master.longitude + dlon)
          obs.latitude obs.longitude).1 - obs.distance) + obs.dtdh * ddepth)
    ∧ (Loc.residual_of G master (.geographic dlat dlon ddepth) obs
      = obs.dt - Loc.dt_pre_of G master (.geographic dlat dlon ddepth) obs)
    ∧ (∀ (obslist : List Loc.Obs) (i : ℕ),
        obslist[i]? = some obs →
        (obslist.map Loc.Obs.weight).sum ≠ 0 →
        ∃ res : Loc.EvalResult,
          Loc.try_solution G master obslist (.geographic dlat dlon ddepth) true = .ok res
          ∧ res.obslist[i]? = some
              { obs with
                dt_pre := some (Loc.dt_pre_of G master (.geographic dlat dlon ddepth) obs),
                residual := some (Loc.residual_of G master (.geographic dlat dlon ddepth) obs
                  - res.tmean) })
    ∧ (∀ (sol : DD.Solution) (obs2 : DD.Obs),
        (DD.dt_pre_of G sol obs2
          = obs2.dtdd * (G.km2deg (G.gpsDistM sol.latitude sol.longitude
              obs2.latitude obs2.longitude / 1000) - obs2.distance)
            + obs2.dtdh * sol.ddepth)
        ∧ (DD.residual_of G sol obs2 = obs2.dt - DD.dt_pre_of G sol obs2)
        ∧ ∀ (obslist2 : List DD.Obs) (i : ℕ), obslist2[i]? = some obs2 →
            ∃ o : DD.Obs, (DD.try_solution G obslist2 sol).2[i]? = some o
              ∧ o.dt_pre = some (DD.dt_pre_of G sol obs2)) := by
  refine ⟨rfl, rfl, ?_, ?_⟩
  · intro obslist i hi hsum
    rw [Loc.try_solution_eq_ok G master obslist _ true hsum]
    refine ⟨_, rfl, ?_⟩
    simp only [List.getElem?_map, hi, Option.map_some]
    rfl
  · intro sol obs2
    refine ⟨rfl, rfl, ?_⟩
    intro obslist2 i hi
    unfold DD.try_solution
    by_cases hemp : (obslist2.filter fun o => o.use == 1).isEmpty <;>
      simp [hemp, List.getElem?_map, hi]

/-- C1 witness: the theorem applied to a concrete observation list. -/
theorem c1_witness :
    ([obsL0][0]? = some obsL0 ∧ ([obsL0].map Loc.Obs.weight).sum ≠ 0)
    ∧ ∃ res : Loc.EvalResult,
        Loc.try_solution G0 master0 [obsL0] (.geographic 1 1 1) true = .ok res
        ∧ res.obslist[0]? = some
            { obsL0 with
              dt_pre := some (Loc.dt_pre_of G0 master0 (.geographic 1 1 1) obsL0),
              residual := some (Loc.residual_of G0 master0 (.geographic 1 1 1) obsL0
                - res.tmean) } :=
  ⟨⟨rfl, by simp [obsL0]⟩,
   (c1_geographic_residuals G0 master0 1 1 1 obsL0).2.2.1 [obsL0] 0 rfl (by simp [obsL0])⟩

lemma getElem?_map_append_middle {α β : Type} (f : α → β) (l1 l2 : List α) (a : α) :
    ((l1 ++ a :: l2).map f)[l1.length]? = some (f a) := by
  rw [List.map_append, List.getElem?_append_right (by simp)]
  simp

lemma DD.try_solution_dt_pre (G : Geo) (sol : DD.Solution) (obslist : List DD.Obs)
    (i : ℕ) (obs : DD.Obs) (hi : obslist[i]? = some obs) :
    ∃ o : DD.Obs, (DD.try_solution G obslist sol).2[i]? = some o
      ∧ o.dt_pre = some (DD.dt_pre_of G sol obs) := by
  unfold DD.try_solution
  by_cases hemp : (obslist.filter fun o => o.use == 1).isEmpty <;>
    simp [hemp, List.getElem?_map, hi]

lemma Loc.posObs_sum_mul (l : List Loc.Obs) (f : Loc.Obs → ℚ) (hw : ∀ o ∈ l, 0 ≤ o.weight) :
    ((Loc.posObs l).map fun o => o.weight * f o).sum = (l.map fun o => o.weight * f o).sum := by
  induction l with
  | nil => rfl
  | cons a t ih =>
    have ha := hw a (List.mem_cons_self a t)
    have ht : ∀ o ∈ t, 0 ≤ o.weight := fun o ho => hw o (List.mem_cons_of_mem a ho)
    by_cases hpos : 0 < a.weight
    · rw [Loc.posObs, List.filter_cons_of_pos (by simpa using hpos)]
      simp only [List.map_cons, List.sum_cons]
      rw [show List.filter (fun o => decide (0 < o.weight)) t = Loc.posObs t from rfl, ih ht]
    · have ha0 : a.weight = 0 := le_antisymm (not_lt.mp hpos) ha
      rw [Loc.posObs, List.filter_cons_of_neg (by simpa using hpos)]
      rw [show List.filter (fun o => decide (0 < o.weight)) t = Loc.posObs t from rfl, ih ht]
      simp [ha0]

lemma Loc.posObs_sum_weight (l : List Loc.Obs) (hw : ∀ o ∈ l, 0 ≤ o.weight) :
    ((Loc.posObs l).map Loc.Obs.weight).sum = (l.map Loc.Obs.weight).sum := by
  have h := Loc.posObs_sum_mul l (fun _ => 1) hw
  simpa [mul_one] using h

lemma Loc.weight_sum_pos (l : List Loc.Obs) (hw : ∀ o ∈ l, 0 ≤ o.weight)
    (hpos : ∃ o ∈ l, 0 < o.weight) : 0 < (l.map Loc.Obs.weight).sum := by
  obtain ⟨o, ho, hgt⟩ := hpos
  have hmem : o.weight ∈ l.map Loc.Obs.weight := List.mem_map_of_mem _ ho
  have hall : ∀ x ∈ l.map Loc.Obs.weight, 0 ≤ x := by
    intro x hx
    obtain ⟨o2, ho2, rfl⟩ := List.mem_map.mp hx
    exact hw o2 ho2
  exact lt_of_lt_of_le hgt (List.single_le_sum hall _ hmem)

/-- C2: with nonnegative weights (the data-model invariant) and at
least one positive weight, evaluation succeeds, `tmean` is the weighted
mean of the raw residuals restricted to the positive-weight
observations, the misfit is the square root of the weighted mean of the
squared tmean-corrected residuals over the same weight set, the misfit
is never negative, and with all weights 1 the statistics degrade to the
unweighted mean and mean square. -/
theorem c2_weighted_statistics (G : Geo) (master : Event) (obslist : List Loc.Obs)
    (sol : Loc.SolParams) (keep : Bool)
    (hw : ∀ o ∈ obslist, 0 ≤ o.weight) (hpos : ∃ o ∈ obslist, 0 < o.weight) :
    ∃ res : Loc.EvalResult,
      Loc.try_solution G master obslist sol keep = .ok res
      ∧ res.tmean
          = ((Loc.posObs obslist).map fun o => o.weight * Loc.residual_of G master sol o).sum
            / ((Loc.posObs obslist).map Loc.Obs.weight).sum
      ∧ res.msq = ((Loc.posObs obslist).map fun o =>
            o.weight * (Loc.residual_of G master sol o - res.tmean) ^ 2).sum
          / ((Loc.posObs obslist).map Loc.Obs.weight).sum
      ∧ res.misfit = Real.sqrt res.msq
      ∧ 0 ≤ res.misfit
      ∧ ((∀ o ∈ obslist, o.weight = 1) →
          res.tmean = (obslist.map (Loc.residual_of G master sol)).sum / (obslist.length : ℚ)
          ∧ res.msq = (obslist.map fun o =>
              (Loc.residual_of G master sol o - res.tmean) ^ 2).sum / (obslist.length : ℚ)) := by
  have hsum : (obslist.map Loc.Obs.weight).sum ≠ 0 :=
    ne_of_gt (Loc.weight_sum_pos obslist hw hpos)
  refine ⟨_, Loc.try_solution_eq_ok G master obslist sol keep hsum, ?_, ?_,
    rfl, Real.sqrt_nonneg _, ?_⟩
  · rw [Loc.posObs_sum_mul obslist _ hw, Loc.posObs_sum_weight obslist hw]
    rfl
  · rw [Loc.posObs_sum_mul obslist _ hw, Loc.posObs_sum_weight obslist hw]
    rfl
  · intro h1
    have hnum : ∀ g : Loc.Obs → ℚ,
        obslist.map (fun o => o.weight * g o) = obslist.map g :=
      fun g => List.map_congr_left fun o ho => by rw [h1 o ho, one_mul]
    have hden : (obslist.map Loc.Obs.weight).sum = (obslist.length : ℚ) := by
      have : obslist.map Loc.Obs.weight = obslist.map (fun _ => (1:ℚ)) :=
        List.map_congr_left fun o ho => h1 o ho
      simp [this]
    constructor
    · show Loc.tmean_of G master obslist sol = _
      rw [Loc.tmean_of, hnum, hden]
    · show Loc.msq_of G master obslist sol = _
      rw [Loc.msq_of, hnum, hden]

/-- C2 witness: the theorem applied to a concrete one-observation list
with weight 1. -/
theorem c2_witness :
    ((∀ o ∈ [obsL0], 0 ≤ o.weight) ∧ ∃ o ∈ [obsL0], 0 < o.weight)
    ∧ ∃ res : Loc.EvalResult,
        Loc.try_solution G0 master0 [obsL0] (.geographic 0 0 0) false = .ok res
        ∧ 0 ≤ res.misfit := by
  have hw : ∀ o ∈ [obsL0], 0 ≤ o.weight := by
    intro o ho
    simp only [List.mem_singleton] at ho
    subst ho
    norm_num [obsL0]
  have hpos : ∃ o ∈ [obsL0], 0 < o.weight :=
    ⟨obsL0, by simp, by norm_num [obsL0]⟩
  obtain ⟨res, h1, _, _, _, h5, _⟩ :=
    c2_weighted_statistics G0 master0 [obsL0] (.geographic 0 0 0) false hw hpos
  exact ⟨⟨hw, hpos⟩, res, h1, h5⟩

lemma Loc.weight_sum_insert_zero (l1 l2 : List Loc.Obs) (obs0 : Loc.Obs)
    (h0 : obs0.weight = 0) :
    ((l1 ++ obs0 :: l2).map Loc.Obs.weight).sum = ((l1 ++ l2).map Loc.Obs.weight).sum := by
  simp [h0]

lemma Loc.tmean_of_insert_zero (G : Geo) (master : Event) (sol : Loc.SolParams)
    (l1 l2 : List Loc.Obs) (obs0 : Loc.Obs) (h0 : obs0.weight = 0) :
    Loc.tmean_of G master (l1 ++ obs0 :: l2) sol = Loc.tmean_of G master (l1 ++ l2) sol := by
  unfold Loc.tmean_of
  simp [h0]

lemma Loc.msq_of_insert_zero (G : Geo) (master : Event) (sol : Loc.SolParams)
    (l1 l2 : List Loc.Obs) (obs0 : Loc.Obs) (h0 : obs0.weight = 0) :
    Loc.msq_of G master (l1 ++ obs0 :: l2) sol = Loc.msq_of G master (l1 ++ l2) sol := by
  unfold Loc.msq_of
  rw [Loc.tmean_of_insert_zero G master sol l1 l2 obs0 h0]
  simp [h0]

lemma DD.filter_use_insert (d1 d2 : List DD.Obs) (obs0d : DD.Obs) (h0d : obs0d.use ≠ 1) :
    (d1 ++ obs0d :: d2).filter (fun o => o.use == 1)
      = (d1 ++ d2).filter (fun o => o.use == 1) := by
  have hne : (obs0d.use == 1) = false := by
    simpa using h0d
  simp [List.filter_append, List.filter_cons, hne]

lemma DD.try_solution_fst_congr (G : Geo) (sol : DD.Solution) (la lb : List DD.Obs)
    (hfil : la.filter (fun o => o.use == 1) = lb.filter (fun o => o.use == 1)) :
    (DD.try_solution G la sol).1 = (DD.try_solution G lb sol).1 := by
  unfold DD.try_solution
  rw [hfil]
  by_cases hemp : (lb.filter fun o => o.use == 1).isEmpty
  · rw [if_pos hemp, if_pos hemp]
  · rw [if_neg hemp, if_neg hemp]

/-- C4: an observation of weight 0 (`locator.py`) or `use` flag other
than 1 (`ddrelocator.py`) has no influence on `tmean` and the misfit:
evaluating with it inserted anywhere in the list gives exactly the
statistics of the list without it, whatever its observed differential
time; the observation itself stays in the evaluated list and still
receives its `dt_pre`/residual bookkeeping. -/
theorem c4_zero_weight_invariance (G : Geo) (master : Event) (sol : Loc.SolParams) (keep : Bool)
    (l1 l2 : List Loc.Obs) (obs0 : Loc.Obs) (h0 : obs0.weight = 0)
    (dsol : DD.Solution) (d1 d2 : List DD.Obs) (obs0d : DD.Obs) (h0d : obs0d.use ≠ 1) :
    ((Loc.try_solution G master (l1 ++ obs0 :: l2) sol keep).map Loc.stats
      = (Loc.try_solution G master (l1 ++ l2) sol keep).map Loc.stats)
    ∧ (∀ res : Loc.EvalResult,
        Loc.try_solution G master (l1 ++ obs0 :: l2) sol true = .ok res →
        res.obslist[l1.length]? = some
          { obs0 with dt_pre := some (Loc.dt_pre_of G master sol obs0),
                      residual := some (Loc.residual_of G master sol obs0 - res.tmean) })
    ∧ ((DD.try_solution G (d1 ++ obs0d :: d2) dsol).1.tmean
        = (DD.try_solution G (d1 ++ d2) dsol).1.tmean
      ∧ (DD.try_solution G (d1 ++ obs0d :: d2) dsol).1.msq
        = (DD.try_solution G (d1 ++ d2) dsol).1.msq)
    ∧ (∃ o : DD.Obs, (DD.try_solution G (d1 ++ obs0d :: d2) dsol).2[d1.length]? = some o
        ∧ o.dt_pre = some (DD.dt_pre_of G dsol obs0d)) := by
  have hwsum := Loc.weight_sum_insert_zero l1 l2 obs0 h0
  refine ⟨?_, ?_, ?_, ?_⟩
  · by_cases hz : ((l1 ++ l2).map Loc.Obs.weight).sum = 0
    · rw [Loc.try_solution_error G master _ sol keep (hwsum.trans hz),
        Loc.try_solution_error G master _ sol keep hz]
    · rw [Loc.try_solution_eq_ok G master _ sol keep (by rw [hwsum]; exact hz),
        Loc.try_solution_eq_ok G master _ sol keep hz,
        Loc.tmean_of_insert_zero G master sol l1 l2 obs0 h0,
        Loc.msq_of_insert_zero G master sol l1 l2 obs0 h0]
      rfl
  · intro res hres
    by_cases hz : ((l1 ++ obs0 :: l2).map Loc.Obs.weight).sum = 0
    · rw [Loc.try_solution_error G master _ sol true hz] at hres
      exact absurd hres (by simp)
    · rw [Loc.try_solution_eq_ok G master _ sol true hz] at hres
      rw [Except.ok.injEq] at hres
      subst hres
      rw [getElem?_map_append_middle]
      rfl
  · have h1 : (DD.try_solution G (d1 ++ obs0d :: d2) dsol).1
        = (DD.try_solution G (d1 ++ d2) dsol).1 :=
      DD.try_solution_fst_congr G dsol _ _ (DD.filter_use_insert d1 d2 obs0d h0d)
    exact ⟨congrArg DD.Solution.tmean h1, congrArg DD.Solution.msq h1⟩
  · exact DD.try_solution_dt_pre G dsol (d1 ++ obs0d :: d2) d1.length obs0d
      (by rw [List.getElem?_append_right le_rfl]; simp)

/-- C4 witness: the theorem applied to a concrete zero-weight and a
concrete `use = 0` observation. -/
theorem c4_witness :
    (obsL1.weight = 0 ∧ obsD0.use ≠ 1)
    ∧ (Loc.try_solution G0 master0 ([obsL0] ++ obsL1 :: []) (.geographic 0 0 0) false).map Loc.stats
        = (Loc.try_solution G0 master0 ([obsL0] ++ []) (.geographic 0 0 0) false).map Loc.stats
    ∧ (DD.try_solution G0 ([obsD1] ++ obsD0 :: []) solD0).1.tmean
        = (DD.try_solution G0 ([obsD1] ++ []) solD0).1.tmean := by
  have h0 : obsL1.weight = 0 := rfl
  have h0d : obsD0.use ≠ 1 := by norm_num [obsD0]
  have h := c4_zero_weight_invariance G0 master0 (.geographic 0 0 0) false
    [obsL0] [] obsL1 h0 solD0 [obsD1] [] obsD0 h0d
  exact ⟨⟨h0, h0d⟩, h.1, h.2.2.1.1⟩

/-- C6 counterexample: with a single observation whose `use` flag is 0,
`ddrelocator.py`'s `try_solution` completes normally and sets `tmean`
and the misfit to NaN (`np.mean` of an empty list; modelled `none`),
instead of signalling any error — and no `InvalidInputError` exists
anywhere in the code.  This refutes the claim that the evaluator
signals an `InvalidInputError` rather than silently returning NaN. -/
theorem c6_counterexample :
    (DD.try_solution G0 [obsD0] solD0).1.tmean = none
    ∧ (DD.try_solution G0 [obsD0] solD0).1.msq = none := by
  constructor <;> rfl

/-- C6 (amended): when no observation has `use == 1` (including the
empty list), `ddrelocator.py`'s evaluator silently returns NaN for
`tmean` and the misfit; `locator.py`'s evaluator raises numpy's
`ZeroDivisionError` when the weights sum to zero (including the empty
list).  Neither raises an `InvalidInputError`. -/
theorem c6_amended :
    (∀ (G : Geo) (obslist : List DD.Obs) (sol : DD.Solution),
        obslist.filter (fun o => o.use == 1) = [] →
        (DD.try_solution G obslist sol).1.tmean = none
          ∧ (DD.try_solution G obslist sol).1.msq = none)
    ∧ (∀ (G : Geo) (master : Event) (obslist : List Loc.Obs) (sol : Loc.SolParams)
        (keep : Bool),
        (obslist.map Loc.Obs.weight).sum = 0 →
        Loc.try_solution G master obslist sol keep = .error .zeroDivisionError) := by
  constructor
  · intro G obslist sol hemp
    unfold DD.try_solution
    simp [hemp]
  · intro G master obslist sol keep h
    exact Loc.try_solution_error G master obslist sol keep h

/-- C6 witness: the amended theorem applied to a concrete `use = 0`
observation list and to the empty weighted list. -/
theorem c6_witness :
    ([obsD0].filter (fun o => o.use == 1) = []
      ∧ (([] : List Loc.Obs).map Loc.Obs.weight).sum = 0)
    ∧ (DD.try_solution G0 [obsD0] solD0).1.msq = none
    ∧ Loc.try_solution G0 master0 [] (.geographic 0 0 0) false
        = .error .zeroDivisionError := by
  have h1 : [obsD0].filter (fun o => o.use == 1) = [] := rfl
  have h2 : (([] : List Loc.Obs).map Loc.Obs.weight).sum = 0 := rfl
  exact ⟨⟨h1, h2⟩, (c6_amended.1 G0 [obsD0] solD0 h1).2,
    c6_amended.2 G0 master0 [] (.geographic 0 0 0) false h2⟩

lemma DD.argminGo_spec (xs : List (WithBot ℝ)) : ∀ (bi i : ℕ) (bv : WithBot ℝ),
    (DD.argminGo bi bv i xs = bi
        ∧ ∀ (m : ℕ) (v : WithBot ℝ), xs[m]? = some v → bv ≤ v)
    ∨ (∃ (k : ℕ) (v : WithBot ℝ), xs[k]? = some v ∧ DD.argminGo bi bv i xs = i + k
        ∧ v < bv
        ∧ (∀ (m : ℕ) (w : WithBot ℝ), xs[m]? = some w → v ≤ w)
        ∧ (∀ (m : ℕ) (w : WithBot ℝ), m < k → xs[m]? = some w → v < w)) := by
  induction xs with
  | nil =>
    intro bi i bv
    exact Or.inl ⟨rfl, fun m v hm => by simp at hm⟩
  | cons x t ih =>
    intro bi i bv
    rw [DD.argminGo]
    by_cases hx : x < bv
    · rw [if_pos hx]
      rcases ih i (i + 1) x with ⟨heq, hall⟩ | ⟨k, v, hkv, heq, hvlt, hmin, hfirst⟩
      · refine Or.inr ⟨0, x, List.getElem?_cons_zero, ?_, hx, ?_, ?_⟩
        · rw [heq, Nat.add_zero]
        · intro m w hm
          cases m with
          | zero =>
            rw [List.getElem?_cons_zero, Option.some.injEq] at hm
            exact le_of_eq hm
          | succ m =>
            rw [List.getElem?_cons_succ] at hm
            exact hall m w hm
        · intro m w hm hmk
          exact absurd hm (Nat.not_lt_zero m)
      · refine Or.inr ⟨k + 1, v, ?_, ?_, lt_trans hvlt hx, ?_, ?_⟩
        · rw [List.getElem?_cons_succ]
          exact hkv
        · rw [heq]
          omega
        · intro m w hm
          cases m with
          | zero =>
            rw [List.getElem?_cons_zero, Option.some.injEq] at hm
            exact hm ▸ le_of_lt hvlt
          | succ m =>
            rw [List.getElem?_cons_succ] at hm
            exact hmin m w hm
        · intro m w hm hmw
          cases m with
          | zero =>
            rw [List.getElem?_cons_zero, Option.some.injEq] at hmw
            exact hmw ▸ hvlt
          | succ m =>
            rw [List.getElem?_cons_succ] at hmw
            exact hfirst m w (Nat.lt_of_succ_lt_succ hm) hmw
    · rw [if_neg hx]
      have hbvx : bv ≤ x := not_lt.mp hx
      rcases ih bi (i + 1) bv with ⟨heq, hall⟩ | ⟨k, v, hkv, heq, hvlt, hmin, hfirst⟩
      · refine Or.inl ⟨heq, ?_⟩
        intro m v hm
        cases m with
        | zero =>
          rw [List.getElem?_cons_zero, Option.some.injEq] at hm
          exact hm ▸ hbvx
        | succ m =>
          rw [List.getElem?_cons_succ] at hm
          exact hall m v hm
      · refine Or.inr ⟨k + 1, v, ?_, ?_, hvlt, ?_, ?_⟩
        · rw [List.getElem?_cons_succ]
          exact hkv
        · rw [heq]
          omega
        · intro m w hm
          cases m with
          | zero =>
            rw [List.getElem?_cons_zero, Option.some.injEq] at hm
            exact hm ▸ le_of_lt (lt_of_lt_of_le hvlt hbvx)
          | succ m =>
            rw [List.getElem?_cons_succ] at hm
            exact hmin m w hm
        · intro m w hm hmw
          cases m with
          | zero =>
            rw [List.getElem?_cons_zero, Option.some.injEq] at hmw
            exact hmw ▸ lt_of_lt_of_le hvlt hbvx
          | succ m =>
            rw [List.getElem?_cons_succ] at hmw
            exact hfirst m w (Nat.lt_of_succ_lt_succ hm) hmw

lemma DD.argminIdx_spec (l : List (WithBot ℝ)) (h : l ≠ []) :
    ∃ v : WithBot ℝ, l[DD.argminIdx l]? = some v
      ∧ (∀ (m : ℕ) (w : WithBot ℝ), l[m]? = some w → v ≤ w)
      ∧ (∀ (m : ℕ) (w : WithBot ℝ), m < DD.argminIdx l → l[m]? = some w → v < w) := by
  cases l with
  | nil => exact absurd rfl h
  | cons x t =>
    rw [DD.argminIdx]
    rcases DD.argminGo_spec t 0 1 x with ⟨heq, hall⟩ | ⟨k, v, hkv, heq, hvlt, hmin, hfirst⟩
    · rw [heq]
      refine ⟨x, List.getElem?_cons_zero, ?_, ?_⟩
      · intro m w hm
        cases m with
        | zero =>
          rw [List.getElem?_cons_zero, Option.some.injEq] at hm
          exact le_of_eq hm
        | succ m =>
          rw [List.getElem?_cons_succ] at hm
          exact hall m w hm
      · intro m w hm
        exact absurd hm (Nat.not_lt_zero m)
    · rw [heq]
      have h1k : 1 + k = k + 1 := Nat.add_comm 1 k
      refine ⟨v, ?_, ?_, ?_⟩
      · rw [h1k, List.getElem?_cons_succ]
        exact hkv
      · intro m w hm
        cases m with
        | zero =>
          rw [List.getElem?_cons_zero, Option.some.injEq] at hm
          exact hm ▸ le_of_lt hvlt
        | succ m =>
          rw [List.getElem?_cons_succ] at hm
          exact hmin m w hm
      · intro m w hm hmw
        cases m with
        | zero =>
          rw [List.getElem?_cons_zero, Option.some.injEq] at hmw
          exact hmw ▸ hvlt
        | succ m =>
          rw [List.getElem?_cons_succ] at hmw
          exact hfirst m w (by omega) hmw

lemma length_flatMap_const {α β : Type} (l : List α) (f : α → List β) (k : ℕ)
    (hk : ∀ a ∈ l, (f a).length = k) : (l.flatMap f).length = l.length * k := by
  induction l with
  | nil => simp
  | cons a t ih =>
    rw [List.flatMap_cons, List.length_append, hk a (List.mem_cons_self a t),
      ih (fun b hb => hk b (List.mem_cons_of_mem a hb)), List.length_cons]
    ring

lemma getElem?_flatMap_const {α β : Type} (l : List α) (f : α → List β) (k : ℕ)
    (hk : ∀ a ∈ l, (f a).length = k) :
    ∀ (i j : ℕ) (a : α), l[i]? = some a → j < k → (l.flatMap f)[i * k + j]? = (f a)[j]? := by
  induction l with
  | nil =>
    intro i j a ha _
    simp at ha
  | cons x t ih =>
    intro i j a ha hj
    rw [List.flatMap_cons]
    cases i with
    | zero =>
      rw [List.getElem?_cons_zero, Option.some.injEq] at ha
      subst ha
      rw [Nat.zero_mul, Nat.zero_add,
        List.getElem?_append_left (by rw [hk x (List.mem_cons_self x t)]; exact hj)]
    | succ i =>
      have hlen : (f x).length = k := hk x (List.mem_cons_self x t)
      have hge : (f x).length ≤ (i + 1) * k + j := by
        rw [hlen]
        calc k ≤ (i + 1) * k := Nat.le_mul_of_pos_left k (Nat.succ_pos i)
          _ ≤ (i + 1) * k + j := Nat.le_add_right _ _
      rw [List.getElem?_append_right hge]
      have harith : (i + 1) * k + j - (f x).length = i * k + j := by
        rw [hlen]
        have : (i + 1) * k = i * k + k := by ring
        omega
      rw [harith, List.getElem?_cons_succ] at *
      exact ih (fun b hb => hk b (List.mem_cons_of_mem x hb)) i j a ha hj

/-- C3: the grid search evaluates exactly `N1·N2·N3` solutions — one
per element of `itertools.product(ddeps, dlats, dlons)`, in that
deterministic enumeration order (the element at flat index
`(i1·N2 + i2)·N3 + i3` is the evaluated solution for
`(ddeps[i1], dlats[i2], dlons[i3])`) — and `find_best_solution`
returns the solution at `np.argmin` of the misfits, which is the first
index attaining the minimum: its misfit is ≤ every misfit in the list
and strictly below the misfit of every earlier solution. -/
theorem c3_gridsearch_count_order_tiebreak (G : Geo) (master : Event)
    (obslist : List DD.Obs) (params : DD.SearchParams) :
    (DD.gridsearch G master obslist params).length
      = params.ddeps.length * params.dlats.length * params.dlons.length
    ∧ (∀ (i1 i2 i3 : ℕ) (ddep dlat dlon : ℚ),
        params.ddeps[i1]? = some ddep → params.dlats[i2]? = some dlat →
        params.dlons[i3]? = some dlon →
        (DD.gridsearch G master obslist params)[(i1 * params.dlats.length + i2)
            * params.dlons.length + i3]?
          = some ((DD.try_solution G obslist
              (DD.Solution.ofOffsets dlat dlon ddep master)).1))
    ∧ (∀ sols : List DD.Solution, sols ≠ [] →
        ∃ best : DD.Solution,
          DD.find_best_solution sols = some best
          ∧ sols[DD.argminIdx (sols.map DD.Solution.misfit)]? = some best
          ∧ (∀ (m : ℕ) (s2 : DD.Solution), sols[m]? = some s2 →
              best.misfit ≤ s2.misfit)
          ∧ (∀ (m : ℕ) (s2 : DD.Solution),
              m < DD.argminIdx (sols.map DD.Solution.misfit) →
              sols[m]? = some s2 → best.misfit < s2.misfit)) := by
  refine ⟨?_, ?_, ?_⟩
  · rw [DD.gridsearch]
    rw [length_flatMap_const _ _ (params.dlats.length * params.dlons.length)
      (fun a _ => length_flatMap_const _ _ params.dlons.length (fun b _ => by simp)),
      Nat.mul_assoc]
  · intro i1 i2 i3 ddep dlat dlon h1 h2 h3
    have hb2 : i2 < params.dlats.length := (List.getElem?_eq_some.mp h2).1
    have hb3 : i3 < params.dlons.length := (List.getElem?_eq_some.mp h3).1
    have hidx : (i1 * params.dlats.length + i2) * params.dlons.length + i3
        = i1 * (params.dlats.length * params.dlons.length)
          + (i2 * params.dlons.length + i3) := by ring
    have hbound : i2 * params.dlons.length + i3
        < params.dlats.length * params.dlons.length := by
      calc i2 * params.dlons.length + i3 < i2 * params.dlons.length + params.dlons.length := by
            omega
        _ = (i2 + 1) * params.dlons.length := by ring
        _ ≤ params.dlats.length * params.dlons.length := Nat.mul_le_mul_right _ hb2
    rw [DD.gridsearch, hidx,
      getElem?_flatMap_const _ _ (params.dlats.length * params.dlons.length)
        (fun a _ => length_flatMap_const _ _ params.dlons.length (fun b _ => by simp))
        i1 _ ddep h1 hbound,
      getElem?_flatMap_const _ _ params.dlons.length (fun b _ => by simp) i2 _ dlat h2 hb3,
      List.getElem?_map, h3]
    rfl
  · intro sols hne
    obtain ⟨v, hv, hmin, hfst⟩ := DD.argminIdx_spec (sols.map DD.Solution.misfit)
      (by simpa using hne)
    rw [List.getElem?_map] at hv
    rcases Option.map_eq_some'.mp hv with ⟨best, hbest, hmis⟩
    refine ⟨best, ?_, hbest, ?_, ?_⟩
    · show sols[DD.argminIdx (sols.map DD.Solution.misfit)]? = some best
      exact hbest
    · intro m s2 hm
      have : (sols.map DD.Solution.misfit)[m]? = some s2.misfit := by
        rw [List.getElem?_map, hm]; rfl
      exact hmis ▸ hmin m s2.misfit this
    · intro m s2 hmlt hm
      have : (sols.map DD.Solution.misfit)[m]? = some s2.misfit := by
        rw [List.getElem?_map, hm]; rfl
      exact hmis ▸ hfst m s2.misfit hmlt this

/-- C3 witness: the theorem applied to a concrete 1×1×1 grid and a
concrete nonempty solution list. -/
theorem c3_witness :
    (([(0:ℚ)] : List ℚ)[0]? = some 0 ∧ ([solFin] : List DD.Solution) ≠ [])
    ∧ (DD.gridsearch G0 master0 [] ⟨[0], [0], [0]⟩).length = 1 * 1 * 1
    ∧ ∃ best : DD.Solution, DD.find_best_solution [solFin] = some best := by
  have h := c3_gridsearch_count_order_tiebreak G0 master0 [] ⟨[0], [0], [0]⟩
  have hne : ([solFin] : List DD.Solution) ≠ [] := by simp
  obtain ⟨best, hb, _, _, _⟩ := h.2.2 [solFin] hne
  exact ⟨⟨rfl, hne⟩, by simpa using h.1, best, hb⟩

/-- C7 counterexample: a list whose first solution has NaN misfit
(modelled `⊥`, matching numpy's argmin treatment of NaN) followed by a
solution with finite misfit `sqrt 1`; `find_best_solution` returns the
NaN-misfit solution, so a non-finite misfit does win the minimization
and nothing detects or surfaces it. -/
theorem c7_counterexample :
    DD.find_best_solution [solNaN, solFin] = some solNaN
    ∧ solNaN.misfit = ⊥ ∧ solFin.misfit ≠ ⊥ := by
  refine ⟨?_, rfl, ?_⟩
  · have h1 : [solNaN, solFin].map DD.Solution.misfit
        = [(⊥ : WithBot ℝ), ((Real.sqrt ((1:ℚ):ℝ) : ℝ) : WithBot ℝ)] := rfl
    have h2 : DD.argminIdx [(⊥ : WithBot ℝ), ((Real.sqrt ((1:ℚ):ℝ) : ℝ) : WithBot ℝ)] = 0 := by
      rw [DD.argminIdx, DD.argminGo, if_neg (not_lt_bot), DD.argminGo]
    show ([solNaN, solFin] : List DD.Solution)[DD.argminIdx
        ([solNaN, solFin].map DD.Solution.misfit)]? = some solNaN
    rw [h1, h2, List.getElem?_cons_zero]
  · show ((Real.sqrt ((1:ℚ):ℝ) : ℝ) : WithBot ℝ) ≠ ⊥
    exact WithBot.coe_ne_bot

/-- C7 (amended): `find_best_solution` uses `np.argmin`, under which
the first NaN misfit is the minimum; so whenever a solution with NaN
misfit is present and no earlier solution has NaN misfit, that solution
is returned — a NaN misfit does win the minimization.  (When every
misfit is finite the returned solution is the first one attaining the
minimum, by the C3 tie-break theorem.) -/
theorem c7_amended (sols : List DD.Solution) (i : ℕ) (s : DD.Solution)
    (hi : sols[i]? = some s) (hnan : s.misfit = ⊥)
    (hfirst : ∀ (j : ℕ) (s2 : DD.Solution), j < i → sols[j]? = some s2 →
      s2.misfit ≠ ⊥) :
    DD.find_best_solution sols = some s := by
  have hne : sols ≠ [] := by
    intro h
    subst h
    simp at hi
  obtain ⟨v, hv, hmin, hfst⟩ := DD.argminIdx_spec (sols.map DD.Solution.misfit)
    (by simpa using hne)
  have hmi : (sols.map DD.Solution.misfit)[i]? = some s.misfit := by
    rw [List.getElem?_map, hi]; rfl
  have hvbot : v = ⊥ := le_bot_iff.mp (hnan ▸ hmin i s.misfit hmi)
  have hri : ¬ i < DD.argminIdx (sols.map DD.Solution.misfit) := by
    intro hlt
    have := hfst i s.misfit hlt hmi
    rw [hvbot, hnan] at this
    exact absurd this (lt_irrefl _)
  have hir : ¬ DD.argminIdx (sols.map DD.Solution.misfit) < i := by
    intro hlt
    rw [List.getElem?_map] at hv
    rcases Option.map_eq_some'.mp hv with ⟨s2, hs2, hms2⟩
    exact hfirst _ s2 hlt hs2 (hms2.trans hvbot)
  have heq : DD.argminIdx (sols.map DD.Solution.misfit) = i := by omega
  show sols[DD.argminIdx (sols.map DD.Solution.misfit)]? = some s
  rw [heq, hi]

/-- C7 witness: the amended theorem applied to a concrete list whose
second solution has the NaN misfit. -/
theorem c7_witness :
    (([solFin, solNaN] : List DD.Solution)[1]? = some solNaN ∧ solNaN.misfit = ⊥)
    ∧ DD.find_best_solution [solFin, solNaN] = some solNaN := by
  have hnan : solNaN.misfit = ⊥ := rfl
  have hfirst : ∀ (j : ℕ) (s2 : DD.Solution), j < 1 →
      ([solFin, solNaN] : List DD.Solution)[j]? = some s2 → s2.misfit ≠ ⊥ := by
    intro j s2 hj hs2
    have hj0 : j = 0 := by omega
    subst hj0
    rw [List.getElem?_cons_zero, Option.some.injEq] at hs2
    subst hs2
    show ((Real.sqrt ((1:ℚ):ℝ) : ℝ) : WithBot ℝ) ≠ ⊥
    exact WithBot.coe_ne_bot
  exact ⟨⟨rfl, hnan⟩, c7_amended [solFin, solNaN] 1 solNaN rfl hnan hfirst⟩

lemma Loc.residual_of_core (G : Geo) (master : Event) (sol : Loc.SolParams) (o : Loc.Obs) :
    Loc.residual_of G master sol (Loc.Obs.core o) = Loc.residual_of G master sol o := by
  cases sol <;> rfl

lemma Loc.updateObs_core (G : Geo) (master : Event) (sol : Loc.SolParams) (t : ℚ)
    (keep : Bool) (o : Loc.Obs) :
    Loc.updateObs G master sol t keep (Loc.Obs.core o)
      = Loc.updateObs G master sol t keep o := by
  cases keep <;> cases sol <;> rfl

lemma Loc.core_updateObs (G : Geo) (master : Event) (sol : Loc.SolParams) (t : ℚ)
    (keep : Bool) (o : Loc.Obs) :
    Loc.Obs.core (Loc.updateObs G master sol t keep o) = Loc.Obs.core o := by
  cases keep <;> rfl

lemma Loc.map_core_eq {β : Type} (F : Loc.Obs → β) (hF : ∀ o, F (Loc.Obs.core o) = F o)
    (l : List Loc.Obs) : (l.map Loc.Obs.core).map F = l.map F := by
  rw [List.map_map]
  exact List.map_congr_left fun o _ => hF o

lemma Loc.try_solution_map_core (G : Geo) (master : Event) (l : List Loc.Obs)
    (sol : Loc.SolParams) (keep : Bool) :
    Loc.try_solution G master (l.map Loc.Obs.core) sol keep
      = Loc.try_solution G master l sol keep := by
  have hw := Loc.map_core_eq Loc.Obs.weight (fun o => rfl) l
  by_cases hz : (l.map Loc.Obs.weight).sum = 0
  · rw [Loc.try_solution_error G master l sol keep hz,
      Loc.try_solution_error G master (l.map Loc.Obs.core) sol keep (by rw [hw]; exact hz)]
  · have htm : Loc.tmean_of G master (l.map Loc.Obs.core) sol
        = Loc.tmean_of G master l sol := by
      unfold Loc.tmean_of
      rw [Loc.map_core_eq (fun o => o.weight * Loc.residual_of G master sol o)
        (fun o => by cases sol <;> rfl) l, hw]
    have hmsq : Loc.msq_of G master (l.map Loc.Obs.core) sol
        = Loc.msq_of G master l sol := by
      unfold Loc.msq_of
      rw [htm,
        Loc.map_core_eq (fun o =>
            o.weight * (Loc.residual_of G master sol o - Loc.tmean_of G master l sol) ^ 2)
          (fun o => by cases sol <;> rfl) l, hw]
    rw [Loc.try_solution_eq_ok G master l sol keep hz,
      Loc.try_solution_eq_ok G master (l.map Loc.Obs.core) sol keep (by rw [hw]; exact hz),
      htm, hmsq,
      Loc.map_core_eq (Loc.updateObs G master sol (Loc.tmean_of G master l sol) keep)
        (fun o => Loc.updateObs_core G master sol _ keep o) l]

lemma Loc.try_solution_congr_core (G : Geo) (master : Event) (l1 l2 : List Loc.Obs)
    (sol : Loc.SolParams) (keep : Bool)
    (h : l1.map Loc.Obs.core = l2.map Loc.Obs.core) :
    Loc.try_solution G master l1 sol keep = Loc.try_solution G master l2 sol keep := by
  rw [← Loc.try_solution_map_core G master l1 sol keep, h,
    Loc.try_solution_map_core G master l2 sol keep]

/-- C8: with `keep_residual` true, every evaluated observation carries
`dt_pre` and the tmean-corrected residual; with the flag false (the
default) both attributes are removed; all other observation fields are
unchanged in both cases.  The evaluation reads only the persistent
fields, so a later evaluation of the same list against a different
solution is unaffected by an earlier evaluation. -/
theorem c8_keep_residual_semantics (G : Geo) (master : Event) (sol sol2 : Loc.SolParams)
    (keep keep2 : Bool) (obslist l1 l2 : List Loc.Obs) :
    (l1.map Loc.Obs.core = l2.map Loc.Obs.core →
      Loc.try_solution G master l1 sol keep = Loc.try_solution G master l2 sol keep)
    ∧ (∀ res : Loc.EvalResult, Loc.try_solution G master obslist sol keep = .ok res →
        res.obslist.length = obslist.length
        ∧ (∀ (i : ℕ) (obs : Loc.Obs), obslist[i]? = some obs →
            res.obslist[i]? = some (if keep then
                { obs with dt_pre := some (Loc.dt_pre_of G master sol obs),
                           residual := some (Loc.residual_of G master sol obs - res.tmean) }
              else { obs with dt_pre := none, residual := none })))
    ∧ (∀ res : Loc.EvalResult, Loc.try_solution G master obslist sol keep = .ok res →
        Loc.try_solution G master res.obslist sol2 keep2
          = Loc.try_solution G master obslist sol2 keep2) := by
  refine ⟨Loc.try_solution_congr_core G master l1 l2 sol keep, ?_, ?_⟩
  · intro res hres
    by_cases hz : (obslist.map Loc.Obs.weight).sum = 0
    · rw [Loc.try_solution_error G master obslist sol keep hz] at hres
      exact absurd hres (by simp)
    · rw [Loc.try_solution_eq_ok G master obslist sol keep hz, Except.ok.injEq] at hres
      subst hres
      refine ⟨by simp, ?_⟩
      intro i obs hi
      simp only [List.getElem?_map, hi, Option.map_some]
      rfl
  · intro res hres
    by_cases hz : (obslist.map Loc.Obs.weight).sum = 0
    · rw [Loc.try_solution_error G master obslist sol keep hz] at hres
      exact absurd hres (by simp)
    · rw [Loc.try_solution_eq_ok G master obslist sol keep hz, Except.ok.injEq] at hres
      subst hres
      apply Loc.try_solution_congr_core
      rw [List.map_map]
      exact List.map_congr_left fun o _ => Loc.core_updateObs G master sol _ keep o

/-- C8 witness: a list whose single observation carries stale scratch
fields evaluates exactly like the clean list, by the theorem applied at
a concrete input. -/
theorem c8_witness :
    ([{ obsL0 with dt_pre := some 42, residual := some 7 }].map Loc.Obs.core
        = [obsL0].map Loc.Obs.core)
    ∧ Loc.try_solution G0 master0 [{ obsL0 with dt_pre := some 42, residual := some 7 }]
        (.geographic 0 0 0) false
      = Loc.try_solution G0 master0 [obsL0] (.geographic 0 0 0) false := by
  have hcore : [{ obsL0 with dt_pre := some 42, residual := some 7 }].map Loc.Obs.core
      = [obsL0].map Loc.Obs.core := rfl
  exact ⟨hcore,
    (c8_keep_residual_semantics G0 master0 (.geographic 0 0 0) (.geographic 0 0 0)
      false false [] _ _).1 hcore⟩
